import Mathlib

/-!
Shallow embedding of `espnet2/train/reporter.py` (the metrics-aggregation and
epoch-bookkeeping core): the value-reduction algebra (`Average` /
`WeightedAverage`, `aggregate`), the per-stream accumulator `SubReporter`, and
the epoch-lifecycle orchestrator `Reporter`.

Modelling conventions:
- Python floats are modelled by `EFloat`: an exact rational together with the
  IEEE special values `inf`, `neginf` and `nan`; the arithmetic used by the
  source (sums, products, division, `np.isfinite`, `np.nanmean`) is embedded
  on this type.
- Python `raise` is modelled by `Except PyErr`; functions that mutate an
  object and may raise return the (possibly partially mutated) state next to
  the `Except`, because a Python exception leaves prior mutations in place.
- `warnings.warn` calls are modelled by a returned `List String`.
- Python `dict` / `defaultdict` are insertion-ordered association lists;
  `defaultdict.__getitem__` inserts the default at the end on a missing key.
- Wall-clock reads (`time.perf_counter()`) are passed in as explicit `ℚ`
  arguments; `timedelta` values are stored as rational second counts.
-/

abbrev PyErr := String

/-! Exact rational arithmetic, phrased through `mkRat` / `Rat.divInt` so that
the kernel can evaluate it on concrete inputs (the library's `Rat.add`,
`Rat.mul`, `Rat.div` are irreducible); each operation is proved equal to the
corresponding field operation on `ℚ`. -/

/-- Computable rational addition. -/
def qadd (a b : ℚ) : ℚ := mkRat (a.num * b.den + b.num * a.den) (a.den * b.den)

/-- Computable rational multiplication. -/
def qmul (a b : ℚ) : ℚ := mkRat (a.num * b.num) (a.den * b.den)

/-- Computable rational subtraction. -/
def qsub (a b : ℚ) : ℚ := mkRat (a.num * b.den - b.num * a.den) (a.den * b.den)

/-- Computable rational division. -/
def qdiv (a b : ℚ) : ℚ := Rat.divInt (a.num * b.den) ((a.den : ℤ) * b.num)

/-- IEEE-style extended value: an exact rational or a special value. -/
inductive EFloat where
  | fin (q : ℚ)
  | inf
  | neginf
  | nan
deriving DecidableEq, Repr, Inhabited

namespace EFloat

/-- Embedding of `np.isfinite`. -/
def isfinite : EFloat → Bool
  | .fin _ => true
  | _ => false

/-- Embedding of `np.isnan`. -/
def isNaN : EFloat → Bool
  | .nan => true
  | _ => false

/-- IEEE addition on extended values. -/
def add : EFloat → EFloat → EFloat
  | .fin a, .fin b => .fin (qadd a b)
  | .fin _, .inf => .inf
  | .inf, .fin _ => .inf
  | .fin _, .neginf => .neginf
  | .neginf, .fin _ => .neginf
  | .inf, .inf => .inf
  | .neginf, .neginf => .neginf
  | .inf, .neginf => .nan
  | .neginf, .inf => .nan
  | .nan, _ => .nan
  | _, .nan => .nan

/-- IEEE multiplication on extended values. -/
def mul : EFloat → EFloat → EFloat
  | .fin a, .fin b => .fin (qmul a b)
  | .fin a, .inf => if 0 < a then .inf else if a < 0 then .neginf else .nan
  | .fin a, .neginf => if 0 < a then .neginf else if a < 0 then .inf else .nan
  | .inf, .fin b => if 0 < b then .inf else if b < 0 then .neginf else .nan
  | .neginf, .fin b => if 0 < b then .neginf else if b < 0 then .inf else .nan
  | .inf, .inf => .inf
  | .inf, .neginf => .neginf
  | .neginf, .inf => .neginf
  | .neginf, .neginf => .inf
  | .nan, _ => .nan
  | _, .nan => .nan

/-- IEEE division on extended values (numpy semantics: x/0 gives ±inf, 0/0
gives nan). -/
def div : EFloat → EFloat → EFloat
  | .fin a, .fin b =>
      if b = 0 then (if a = 0 then .nan else if 0 < a then .inf else .neginf)
      else .fin (qdiv a b)
  | .fin _, .inf => .fin 0
  | .fin _, .neginf => .fin 0
  | .inf, .fin b => if b < 0 then .neginf else .inf
  | .neginf, .fin b => if b < 0 then .inf else .neginf
  | .inf, .inf => .nan
  | .inf, .neginf => .nan
  | .neginf, .inf => .nan
  | .neginf, .neginf => .nan
  | .nan, _ => .nan
  | _, .nan => .nan

/-- Negation on extended values. -/
def neg : EFloat → EFloat
  | .fin a => .fin (-a)
  | .inf => .neginf
  | .neginf => .inf
  | .nan => .nan

/-- Python `<` on floats (any comparison involving nan is false). -/
def lt : EFloat → EFloat → Bool
  | .fin a, .fin b => decide (a < b)
  | .fin _, .inf => true
  | .neginf, .fin _ => true
  | .neginf, .inf => true
  | _, _ => false

end EFloat

/-- Python `sum(...)` over extended values (starts from the int 0). -/
def sumE (xs : List EFloat) : EFloat :=
  xs.foldl EFloat.add (.fin 0)

/-- The sum type of reported values: dataclasses `Average` and
`WeightedAverage` of the source. -/
inductive ReportedValue where
  | Average (value : EFloat)
  | WeightedAverage (value : EFloat) (weight : EFloat)
deriving DecidableEq, Repr

namespace ReportedValue

/-- The runtime class tag used by the `isinstance` checks of `aggregate`. -/
def tag : ReportedValue → Nat
  | .Average _ => 0
  | .WeightedAverage _ _ => 1

/-- The `value` field, present on both dataclasses. -/
def value : ReportedValue → EFloat
  | .Average v => v
  | .WeightedAverage v _ => v

/-- Partial read of the `(value, weight)` pair of a `WeightedAverage`. -/
def toPair : ReportedValue → Option (EFloat × EFloat)
  | .WeightedAverage v w => some (v, w)
  | .Average _ => none

end ReportedValue

/-- Source `to_reported_value(v, weight)`: the tensor/array branches are not
modelled (inputs here are already scalar); with a weight the result is a
`WeightedAverage`, otherwise an `Average`. -/
def to_reported_value (v : EFloat) (weight : Option EFloat) : ReportedValue :=
  match weight with
  | some w => .WeightedAverage v w
  | none => .Average v

/-- Source `aggregate(values)`, returning the reduced value and the
`warnings.warn` messages it emits (numpy's own empty-slice warning from
`np.nanmean` is included as a warning message).  The source first runs the
`isinstance` loop (vacuous on an empty list, since `values[0]` is only read
inside the loop body), then dispatches on emptiness and on the variant of
`values[0]`. -/
def aggregate : List ReportedValue → Except PyErr (EFloat × List String)
  | [] => .ok (.nan, ["No stats found"])
  | v0 :: rest =>
    if (v0 :: rest).all (fun v => v.tag == v0.tag) then
      match v0 with
      | .Average _ =>
        -- np.nanmean([v.value for v in values])
        let vals := (v0 :: rest).map ReportedValue.value
        let ys := vals.filter (fun x => !x.isNaN)
        .ok ((sumE ys).div (.fin ys.length),
             if ys.isEmpty then ["Mean of empty slice"] else [])
      | .WeightedAverage _ _ =>
        -- every element is a WeightedAverage here (isinstance loop passed);
        -- extract the (value, weight) pairs and exclude non-finite entries
        let pairs := (v0 :: rest).filterMap ReportedValue.toPair
        let good := pairs.filter (fun p => p.1.isfinite && p.2.isfinite)
        if good.isEmpty then
          .ok (.nan, ["No valid stats found"])
        else
          let sum_weights := sumE (good.map (fun p => p.2))
          let sum_value := sumE (good.map (fun p => p.1.mul p.2))
          if sum_weights == .fin 0 then
            .ok (.nan, ["weight is zero"])
          else
            .ok (sum_value.div sum_weights, [])
    else
      .error "Can not use different Reported type together"

instance {ε α : Type} [DecidableEq ε] [DecidableEq α] : DecidableEq (Except ε α)
  | .error e, .error f =>
    if h : e = f then isTrue (by rw [h])
    else isFalse (fun hh => h (by cases hh; rfl))
  | .ok a, .ok b =>
    if h : a = b then isTrue (by rw [h])
    else isFalse (fun hh => h (by cases hh; rfl))
  | .error _, .ok _ => isFalse (fun hh => by cases hh)
  | .ok _, .error _ => isFalse (fun hh => by cases hh)

/-! Insertion-ordered association lists model Python `dict` / `defaultdict`. -/

/-- Python `d[k]` read / `k in d` lookup on a plain dict. -/
def dlookup {κ ν : Type} [DecidableEq κ] : List (κ × ν) → κ → Option ν
  | [], _ => none
  | (a, b) :: t, k => if a = k then some b else dlookup t k

/-- Python `d[k] = v`: replace in place, or append a new binding at the end. -/
def dset {κ ν : Type} [DecidableEq κ] : List (κ × ν) → κ → ν → List (κ × ν)
  | [], k, v => [(k, v)]
  | (a, b) :: t, k, v => if a = k then (a, v) :: t else (a, b) :: dset t k v

/-- Python `d.pop(k, None)`: drop the binding for `k` when present. -/
def dpop {κ ν : Type} [DecidableEq κ] : List (κ × ν) → κ → List (κ × ν)
  | [], _ => []
  | (a, b) :: t, k => if a = k then t else (a, b) :: dpop t k

/-- Python `defaultdict.__getitem__`: return the binding, inserting the default at
the end of the table when the key is missing. -/
def ddGet {κ ν : Type} [DecidableEq κ] (m : List (κ × ν)) (k : κ) (default : ν) :
    ν × List (κ × ν) :=
  match dlookup m k with
  | some v => (v, m)
  | none => (default, m ++ [(k, default)])

/-- Python `defaultdict(list)` append: `m[k].append(x)`. -/
def ddAppend {κ ν : Type} [DecidableEq κ] : List (κ × List ν) → κ → ν → List (κ × List ν)
  | [], k, x => [(k, [x])]
  | (a, l) :: t, k, x => if a = k then (a, l ++ [x]) :: t else (a, l) :: ddAppend t k x

/-- Python `max(d)` over the keys of a dict (None on an empty dict, where the
source raises `ValueError`). -/
def maxKey {ν : Type} : List (Int × ν) → Option Int
  | [] => none
  | (a, _) :: t =>
    match maxKey t with
    | none => some a
    | some b => some (max a b)

/-- The module-level `_reserved` set. -/
def _reserved : List String := ["time", "total_count"]

/-- Class `SubReporter`: the per-(stream, epoch) accumulator.  `start_time` is the
`time.perf_counter()` reading captured at construction. -/
structure SubReporter where
  key : String
  epoch : Int
  start_time : ℚ
  stats : List (String × List ReportedValue)
  total_count : Int
  finished : Bool
deriving DecidableEq, Repr

namespace SubReporter

/-- Accessor `get_total_count`. -/
def get_total_count (s : SubReporter) : Int := s.total_count

end SubReporter

/-- The `for key2, v in stats.items()` loop body of `SubReporter.register`:
reserved keys raise (leaving earlier mutations in place), `None` values are
skipped, other values are converted and appended to their series. -/
def registerLoop (weight : Option EFloat) :
    SubReporter → List (String × Option EFloat) → Except PyErr Unit × SubReporter
  | s, [] => (.ok (), s)
  | s, (key2, v) :: rest =>
    if key2 ∈ _reserved then
      (.error (key2 ++ " is reserved."), s)
    else
      match v with
      | none => registerLoop weight s rest
      | some x =>
        registerLoop weight
          { s with stats := ddAppend s.stats key2 (to_reported_value x weight) } rest

namespace SubReporter

/-- Method `SubReporter.register(stats, weight, not_increment_count)`.  Raises when
already finished; otherwise increments `total_count` first (unless
suppressed) and then processes the keys in order.  The partially mutated
state is returned next to the raised error, as in Python. -/
def register (s : SubReporter) (stats : List (String × Option EFloat))
    (weight : Option EFloat) (not_increment_count : Bool) :
    Except PyErr Unit × SubReporter :=
  if s.finished then
    (.error "Already finished", s)
  else
    let s1 := if !not_increment_count then { s with total_count := s.total_count + 1 } else s
    registerLoop weight s1 stats

/-- Method `SubReporter.finished()`. -/
def finish (s : SubReporter) : SubReporter := { s with finished := true }

end SubReporter

/-- A value of the finalized stats table: an aggregated float, the `time`
duration (seconds), or the `total_count` int. -/
inductive FinalVal where
  | num (x : EFloat)
  | dur (t : ℚ)
  | cnt (n : Int)
deriving DecidableEq, Repr

/-- One finalized per-stream entry: `key -> FinalVal`, insertion-ordered. -/
abbrev StatsEntry := List (String × FinalVal)

/-- The per-epoch table: `stream name -> StatsEntry`. -/
abbrev EpochTable := List (String × StatsEntry)

/-- The full finalized table: `epoch -> EpochTable` (a `defaultdict(dict)`). -/
abbrev StatsTable := List (Int × EpochTable)

/-- Class `Reporter`: the current epoch pointer and the finalized stats table. -/
structure Reporter where
  epoch : Int
  stats : StatsTable
deriving DecidableEq, Repr

namespace Reporter

/-- Accessor `get_epoch`. -/
def get_epoch (r : Reporter) : Int := r.epoch

/-- Setter `set_epoch`: rejects a negative epoch. -/
def set_epoch (r : Reporter) (epoch : Int) : Except PyErr Reporter :=
  if epoch < 0 then .error "epoch must be 0 or more"
  else .ok { r with epoch := epoch }

end Reporter

/-- The body of `Reporter.start_epoch` after the epoch-argument handling:
seed `total_count` from the previous epoch's finalized entry for this stream
(warning and 0 when missing and the previous epoch is not 0), build the
fresh `SubReporter`, and run `self.stats.pop(epoch, None)`. -/
def startEpochBody (r : Reporter) (key : String) (epoch : Option Int) (now : ℚ) :
    Except PyErr SubReporter × Reporter × List String :=
  let seeded : Except PyErr Int × List String :=
    match dlookup r.stats (r.epoch - 1) with
    | none =>
      (.ok 0, if r.epoch - 1 ≠ 0 then ["The stats of the previous epoch does not exist."] else [])
    | some d =>
      match dlookup d key with
      | none =>
        (.ok 0, if r.epoch - 1 ≠ 0 then ["The stats of the previous epoch does not exist."] else [])
      | some entry =>
        match dlookup entry "total_count" with
        | some (.cnt n) => (.ok n, [])
        | some _ => (.error "total_count is not an int", [])
        | none => (.error "KeyError", [])
  match seeded with
  | (.error e, w) => (.error e, r, w)
  | (.ok total_count, w) =>
    let sub : SubReporter :=
      { key := key, epoch := r.epoch, start_time := now, stats := [],
        total_count := total_count, finished := false }
    -- self.stats.pop(epoch, None): only evicts when the argument was given
    let stats1 := match epoch with
      | some e => dpop r.stats e
      | none => r.stats
    (.ok sub, { r with stats := stats1 }, w)

namespace Reporter

/-- Method `Reporter.start_epoch(key, epoch)`.  `now` is the `time.perf_counter()`
reading taken when the `SubReporter` is constructed.  Returns the raised
error or the fresh stream, the post-call reporter state (mutations before a
raise are kept), and the `warnings.warn` messages.

Note `self.stats.pop(epoch, None)` pops the *argument* `epoch`: when the
argument is `None` it pops the key `None`, which is never present in the
int-keyed table, so nothing is evicted in that case. -/
def start_epoch (r : Reporter) (key : String) (epoch : Option Int) (now : ℚ) :
    Except PyErr SubReporter × Reporter × List String :=
  match epoch with
  | some e =>
    if e < 0 then (.error "epoch must be 0 or more", r, [])
    else startEpochBody { r with epoch := e } key epoch now
  | none => startEpochBody r key epoch now

end Reporter

/-- The `for key2, values in sub_reporter.stats.items()` reduction loop of
`finish_epoch`: aggregate every series (a raise from `aggregate` propagates
before `self.stats` is touched). -/
def aggAll : List (String × List ReportedValue) → Except PyErr StatsEntry
  | [] => .ok []
  | (key2, values) :: t =>
    match aggregate values with
    | .error e => .error e
    | .ok (v, _) =>
      match aggAll t with
      | .error e => .error e
      | .ok rest => .ok ((key2, .num v) :: rest)

namespace Reporter

/-- Method `Reporter.finish_epoch(sub_reporter)`.  `now` is the
`time.perf_counter()` reading used for the elapsed-time entry.  Raises
without touching any state when the stream's epoch differs from the current
epoch; otherwise reduces every series, appends the reserved `time` and
`total_count` entries, stores the entry under
`stats[self.epoch][sub_reporter.key]`, and marks the stream finished. -/
def finish_epoch (r : Reporter) (sub : SubReporter) (now : ℚ) :
    Except PyErr Unit × Reporter × SubReporter :=
  if r.epoch ≠ sub.epoch then
    (.error "Do not change epoch during observation", r, sub)
  else
    match aggAll sub.stats with
    | .error e => (.error e, r, sub)
    | .ok reduced =>
      let entry : StatsEntry :=
        reduced ++ [("time", .dur (qsub now sub.start_time)), ("total_count", .cnt sub.total_count)]
      let (d, stats1) := ddGet r.stats r.epoch []
      (.ok (), { r with stats := dset stats1 r.epoch (dset d sub.key entry) }, sub.finish)

/-- Method `Reporter.observe(key, epoch)` used as a `with` block around `body`.
The `@contextmanager` generator runs `start_epoch`, yields, and calls
`finish_epoch` after the yield with no try/finally: when `body` raises, the
exception is rethrown at the yield point and propagates out of the
generator, so `finish_epoch` never runs; when `body` returns normally,
`finish_epoch` runs on scope exit. -/
def observe {α : Type} (r : Reporter) (key : String) (epoch : Option Int)
    (now fin_now : ℚ) (body : SubReporter → Except PyErr (SubReporter × α)) :
    Except PyErr α × Reporter :=
  match r.start_epoch key epoch now with
  | (.error e, r1, _) => (.error e, r1)
  | (.ok sub, r1, _) =>
    match body sub with
    | .error e => (.error e, r1)
    | .ok (sub2, a) =>
      match r1.finish_epoch sub2 fin_now with
      | (.error e, r2, _) => (.error e, r2)
      | (.ok _, r2, _) => (.ok a, r2)

end Reporter

/-- The list comprehension
`[(e, self.stats[e][key][key2]) for e in self.stats]` of
`sort_epochs_and_values`: every epoch of the table is visited in iteration
order, and a missing stream or key raises a `KeyError`. -/
def extractValues : StatsTable → String → String → Except PyErr (List (Int × FinalVal))
  | [], _, _ => .ok []
  | (e, d) :: t, key, key2 =>
    match dlookup d key with
    | none => .error "KeyError"
    | some entry =>
      match dlookup entry key2 with
      | none => .error "KeyError"
      | some v =>
        match extractValues t key key2 with
        | .error err => .error err
        | .ok vs => .ok ((e, v) :: vs)

/-- Does this epoch's table hold the `(key, key2)` entry? -/
def holdsEntry (d : EpochTable) (key key2 : String) : Bool :=
  ((dlookup d key).bind (fun entry => dlookup entry key2)).isSome

/-- The `(epoch, value)` pairs over exactly those epochs that hold the
`(key, key2)` entry, in table iteration order (what the specification's
sentence describes). -/
def pairsOf (stats : StatsTable) (key key2 : String) : List (Int × FinalVal) :=
  stats.filterMap (fun p =>
    ((dlookup p.2 key).bind (fun entry => dlookup entry key2)).map (fun v => (p.1, v)))

/-- Python `<` on finalized values: numbers compare with numbers (ints via
their float embedding), durations with durations.  A duration/number
comparison raises `TypeError` in Python; it is modelled as `false` here and
never arises in the settled claims. -/
def fvLt : FinalVal → FinalVal → Bool
  | .num a, .num b => a.lt b
  | .num a, .cnt n => a.lt (.fin n)
  | .cnt m, .num b => EFloat.lt (.fin m) b
  | .cnt m, .cnt n => decide (m < n)
  | .dur s, .dur t => decide (s < t)
  | _, _ => false

/-- Python unary minus on a finalized value (the `key=lambda x: -x[1]` of
the `max` branch). -/
def fvNeg : FinalVal → FinalVal
  | .num x => .num x.neg
  | .cnt n => .cnt (-n)
  | .dur t => .dur (-t)

/-- Insert `x` into `l` before the first element `y` with `¬ (y < x)`:
the insertion step of a stable comparison sort (equal elements keep their
original relative order, as Python's `sorted` guarantees). -/
def insertByLt {α : Type} (lt : α → α → Bool) (x : α) : List α → List α
  | [] => [x]
  | y :: ys => if lt y x then y :: insertByLt lt x ys else x :: y :: ys

/-- A stable comparison sort over the strict `<` callback, embedding
Python's stable `sorted`. -/
def sortByLt {α : Type} (lt : α → α → Bool) : List α → List α
  | [] => []
  | x :: xs => insertByLt lt x (sortByLt lt xs)

namespace Reporter

/-- Method `Reporter.sort_epochs_and_values(key, key2, mode)`: rejects a mode other
than "min"/"max", extracts `(epoch, value)` pairs over *every* epoch of the
table (raising when one lacks the entry), and stably sorts them by value
(ascending for "min", by negated value for "max"). -/
def sort_epochs_and_values (r : Reporter) (key key2 mode : String) :
    Except PyErr (List (Int × FinalVal)) :=
  if mode ≠ "min" ∧ mode ≠ "max" then .error "mode must min or max"
  else
    match extractValues r.stats key key2 with
    | .error e => .error e
    | .ok values =>
      if mode = "min" then
        .ok (sortByLt (fun a b => fvLt a.2 b.2) values)
      else
        .ok (sortByLt (fun a b => fvLt (fvNeg a.2) (fvNeg b.2)) values)

/-- Method `Reporter.logging(logger, level, epoch)`: resolves the default epoch via
`max(self.stats)` (raising on an empty table), then iterates
`self.stats[epoch].items()` — a `defaultdict` access that inserts an empty
entry when the epoch is absent.  The structured content handed to the
logger is returned; the textual rendering of the message is not modelled. -/
def logging (r : Reporter) (epoch : Option Int) :
    Except PyErr EpochTable × Reporter :=
  match epoch with
  | none =>
    match maxKey r.stats with
    | none => (.error "max() arg is an empty sequence", r)
    | some e =>
      let (d, stats1) := ddGet r.stats e []
      (.ok d, { r with stats := stats1 })
  | some e =>
    let (d, stats1) := ddGet r.stats e []
    (.ok d, { r with stats := stats1 })

/-- Read `self.stats[epoch][key][key2]` of `get_value` at a resolved epoch: the
outer `defaultdict` access inserts an empty entry when the epoch is absent,
and the two inner plain-dict reads then raise `KeyError` — with the inserted
entry left in place. -/
def getValueAt (r : Reporter) (key key2 : String) (e : Int) :
    Except PyErr FinalVal × Reporter :=
  let (d, stats1) := ddGet r.stats e []
  let r1 : Reporter := { r with stats := stats1 }
  match dlookup d key with
  | none => (.error "KeyError", r1)
  | some entry =>
    match dlookup entry key2 with
    | none => (.error "KeyError", r1)
    | some v => (.ok v, r1)

/-- Method `Reporter.get_value(key, key2, epoch)`; the default epoch is
`max(self.stats)`. -/
def get_value (r : Reporter) (key key2 : String) (epoch : Option Int) :
    Except PyErr FinalVal × Reporter :=
  match epoch with
  | none =>
    match maxKey r.stats with
    | none => (.error "max() arg is an empty sequence", r)
    | some e => getValueAt r key key2 e
  | some e => getValueAt r key key2 e

/-- Method `Reporter.get_keys(epoch)`: `tuple(self.stats[epoch])` — again a
`defaultdict` access that inserts an empty entry for an absent epoch. -/
def get_keys (r : Reporter) (epoch : Option Int) :
    Except PyErr (List String) × Reporter :=
  match epoch with
  | none =>
    match maxKey r.stats with
    | none => (.error "max() arg is an empty sequence", r)
    | some e =>
      let (d, stats1) := ddGet r.stats e []
      (.ok (d.map Prod.fst), { r with stats := stats1 })
  | some e =>
    let (d, stats1) := ddGet r.stats e []
    (.ok (d.map Prod.fst), { r with stats := stats1 })

end Reporter

/-- The cumulative effect of `register`'s key loop on the `stats` mapping:
`None` values are skipped, others are converted and appended in order. -/
def applyStats (w : Option EFloat) (st : List (String × List ReportedValue)) :
    List (String × Option EFloat) → List (String × List ReportedValue)
  | [] => st
  | (_, none) :: t => applyStats w st t
  | (k, some x) :: t => applyStats w (ddAppend st k (to_reported_value x w)) t

/-- A concrete unfinished stream used by witnesses. -/
def sampleStream : SubReporter :=
  { key := "train", epoch := 1, start_time := 0, stats := [], total_count := 7,
    finished := false }

/-- A concrete unfinished stream with an existing series. -/
def sampleStreamA : SubReporter :=
  { key := "train", epoch := 1, start_time := 0, stats := [("a", [.Average (.fin 9)])],
    total_count := 4, finished := false }

/-- A concrete finalized entry used by fixtures. -/
def sampleEntry : StatsEntry :=
  [("loss", .num (.fin 1)), ("time", .dur 1), ("total_count", .cnt 5)]

/-- The specification's sort scenario: finalized epochs
`{1: 0.5, 2: 0.2, 3: 0.8}` for `("eval", "loss")`. -/
def sampleSortTable : StatsTable :=
  [(1, [("eval", [("loss", FinalVal.num (.fin (mkRat 1 2)))])]),
   (2, [("eval", [("loss", FinalVal.num (.fin (mkRat 1 5)))])]),
   (3, [("eval", [("loss", FinalVal.num (.fin (mkRat 4 5)))])])]

/-! Theorems. -/

theorem qadd_eq (a b : ℚ) : qadd a b = a + b := (Rat.add_def' a b).symm

theorem qmul_eq (a b : ℚ) : qmul a b = a * b := by
  rw [qmul, Rat.mul_def, Rat.normalize_eq_mkRat]

theorem qdiv_eq (a b : ℚ) : qdiv a b = a / b := (Rat.div_def' a b).symm


/-! Supporting lemmas. -/

theorem EFloat.eq_fin_of_isfinite {x : EFloat} (h : x.isfinite = true) : ∃ q, x = .fin q := by
  cases x with
  | fin q => exact ⟨q, rfl⟩
  | inf => simp [EFloat.isfinite] at h
  | neginf => simp [EFloat.isfinite] at h
  | nan => simp [EFloat.isfinite] at h

theorem foldl_add_fin (xs : List EFloat) (h : ∀ x ∈ xs, x.isfinite = true) :
    ∀ q0 : ℚ, ∃ q : ℚ, xs.foldl EFloat.add (.fin q0) = .fin q := by
  induction xs with
  | nil => intro q0; exact ⟨q0, rfl⟩
  | cons x t ih =>
    intro q0
    obtain ⟨a, rfl⟩ := EFloat.eq_fin_of_isfinite (h x (by simp))
    obtain ⟨q, hq⟩ := ih (fun y hy => h y (by simp [hy])) (qadd q0 a)
    exact ⟨q, by simpa [EFloat.add] using hq⟩

theorem sumE_eq_fin (xs : List EFloat) (h : ∀ x ∈ xs, x.isfinite = true) :
    ∃ q : ℚ, sumE xs = .fin q :=
  foldl_add_fin xs h 0

theorem filterMap_toPair_map (ps : List (EFloat × EFloat)) :
    (ps.map (fun p => ReportedValue.WeightedAverage p.1 p.2)).filterMap ReportedValue.toPair
      = ps := by
  induction ps with
  | nil => rfl
  | cons p t ih => simp [ReportedValue.toPair, ih]

theorem all_tag_cons_WA (x y : EFloat) (l : List (EFloat × EFloat)) :
    (ReportedValue.WeightedAverage x y ::
        l.map (fun p => ReportedValue.WeightedAverage p.1 p.2)).all
      (fun v => v.tag == (ReportedValue.WeightedAverage x y).tag) = true := by
  rw [List.all_eq_true]
  intro v hv
  rcases List.mem_cons.1 hv with h | h
  · subst h; rfl
  · obtain ⟨p, _, rfl⟩ := List.mem_map.1 h; rfl

theorem filterMap_toPair_cons (x y : EFloat) (l : List (EFloat × EFloat)) :
    (ReportedValue.WeightedAverage x y ::
        l.map (fun p => ReportedValue.WeightedAverage p.1 p.2)).filterMap
      ReportedValue.toPair = (x, y) :: l := by
  have h : (ReportedValue.WeightedAverage x y ::
        l.map (fun p => ReportedValue.WeightedAverage p.1 p.2)).filterMap
      ReportedValue.toPair
      = (x, y) :: (l.map (fun p => ReportedValue.WeightedAverage p.1 p.2)).filterMap
          ReportedValue.toPair := rfl
  rw [h, filterMap_toPair_map]

/-- Unfolding of `aggregate` on a non-empty homogeneous `WeightedAverage`
list: the non-finite entries are excluded and the three numerical outcomes
follow the source's branches. -/
theorem aggregate_map_WA (x y : EFloat) (ps : List (EFloat × EFloat)) :
    aggregate (ReportedValue.WeightedAverage x y ::
        ps.map (fun p => ReportedValue.WeightedAverage p.1 p.2)) =
      (if (((x, y) :: ps).filter (fun p => p.1.isfinite && p.2.isfinite)).isEmpty then
        .ok (.nan, ["No valid stats found"])
      else if sumE ((((x, y) :: ps).filter
          (fun p => p.1.isfinite && p.2.isfinite)).map (fun p => p.2)) == .fin 0 then
        .ok (.nan, ["weight is zero"])
      else
        .ok ((sumE ((((x, y) :: ps).filter
              (fun p => p.1.isfinite && p.2.isfinite)).map (fun p => p.1.mul p.2))).div
            (sumE ((((x, y) :: ps).filter
              (fun p => p.1.isfinite && p.2.isfinite)).map (fun p => p.2))), [])) := by
  simp only [aggregate, all_tag_cons_WA, filterMap_toPair_cons, if_true]

/-- C3: for every non-empty sequence of `WeightedAverage` values, `aggregate`
first discards every entry whose value or weight is non-finite; if all
entries are discarded it returns NaN, if the surviving weights sum to
exactly zero it returns NaN, and otherwise it returns the quotient of the
sum of `value * weight` by the sum of the weights over the survivors — never
raising for any of these numerical conditions. -/
theorem aggregate_weighted_average_spec (p0 : EFloat × EFloat)
    (ps : List (EFloat × EFloat)) :
    (∃ out, aggregate (((p0 :: ps).map (fun p => ReportedValue.WeightedAverage p.1 p.2)))
        = .ok out) ∧
    ((p0 :: ps).filter (fun p => p.1.isfinite && p.2.isfinite) = [] →
      aggregate (((p0 :: ps).map (fun p => ReportedValue.WeightedAverage p.1 p.2)))
        = .ok (.nan, ["No valid stats found"])) ∧
    (∀ good, good = (p0 :: ps).filter (fun p => p.1.isfinite && p.2.isfinite) →
      good ≠ [] →
      (sumE (good.map (fun p => p.2)) = .fin 0 →
        aggregate (((p0 :: ps).map (fun p => ReportedValue.WeightedAverage p.1 p.2)))
          = .ok (.nan, ["weight is zero"])) ∧
      (sumE (good.map (fun p => p.2)) ≠ .fin 0 →
        ∃ a b : ℚ, b ≠ 0 ∧
          sumE (good.map (fun p => p.1.mul p.2)) = .fin a ∧
          sumE (good.map (fun p => p.2)) = .fin b ∧
          aggregate (((p0 :: ps).map (fun p => ReportedValue.WeightedAverage p.1 p.2)))
            = .ok (.fin (a / b), []))) := by
  obtain ⟨x, y⟩ := p0
  have hunfold := aggregate_map_WA x y ps
  rw [List.map_cons] at *
  refine ⟨?_, ?_, ?_⟩
  · rw [hunfold]
    split
    · exact ⟨_, rfl⟩
    · split
      · exact ⟨_, rfl⟩
      · exact ⟨_, rfl⟩
  · intro hempty
    rw [hunfold, if_pos (by simp [hempty])]
  · intro good hgood hne
    have hne' : ¬ (((x, y) :: ps).filter (fun p => p.1.isfinite && p.2.isfinite)).isEmpty
        = true := by
      rw [← hgood]
      simpa [List.isEmpty_iff] using hne
    constructor
    · intro hzero
      rw [hunfold, if_neg hne', if_pos (by rw [← hgood]; simp [hzero])]
    · intro hnz
      have hfin : ∀ p ∈ good, (p : EFloat × EFloat).1.isfinite = true
          ∧ p.2.isfinite = true := by
        intro p hp
        rw [hgood] at hp
        have := List.of_mem_filter hp
        exact ⟨by simp_all, by simp_all⟩
      obtain ⟨b, hb⟩ := sumE_eq_fin (good.map (fun p => p.2)) (by
        intro z hz
        obtain ⟨p, hp, rfl⟩ := List.mem_map.1 hz
        exact (hfin p hp).2)
      obtain ⟨a, ha⟩ := sumE_eq_fin (good.map (fun p => p.1.mul p.2)) (by
        intro z hz
        obtain ⟨p, hp, rfl⟩ := List.mem_map.1 hz
        obtain ⟨q1, h1⟩ := EFloat.eq_fin_of_isfinite (hfin p hp).1
        obtain ⟨q2, h2⟩ := EFloat.eq_fin_of_isfinite (hfin p hp).2
        simp [h1, h2, EFloat.mul, EFloat.isfinite])
      have hbne : b ≠ 0 := fun h0 => hnz (by rw [hb, h0])
      refine ⟨a, b, hbne, ha, hb, ?_⟩
      rw [hunfold, if_neg hne', if_neg (by rw [← hgood, hb]; simp [hbne])]
      rw [← hgood, hb, ha]
      simp [EFloat.div, hbne, qdiv_eq]

/-- C3 witness: a concrete run through the finite-quotient branch, with one
NaN-weighted entry discarded. -/
theorem aggregate_weighted_average_spec_witness :
    sumE (((((.fin 2, .fin 1) : EFloat × EFloat) ::
        [((.fin 4 : EFloat), (.fin 1 : EFloat)), (.nan, .fin 2)]).filter
        (fun p => p.1.isfinite && p.2.isfinite)).map (fun p => p.2)) ≠ .fin 0 ∧
    aggregate (((((.fin 2, .fin 1) : EFloat × EFloat) ::
        [((.fin 4 : EFloat), (.fin 1 : EFloat)), (.nan, .fin 2)]).map
        (fun p => ReportedValue.WeightedAverage p.1 p.2)))
      = .ok (.fin 3, []) := by
  refine ⟨by decide, ?_⟩
  obtain ⟨a, b, hbne, ha, hb, hres⟩ :=
    ((aggregate_weighted_average_spec (.fin 2, .fin 1)
      [((.fin 4 : EFloat), (.fin 1 : EFloat)), (.nan, .fin 2)]).2.2
      _ rfl (by decide)).2 (by decide)
  have ha' : EFloat.fin a = .fin 6 := by rw [← ha]; decide
  have hb' : EFloat.fin b = .fin 2 := by rw [← hb]; decide
  rw [hres, (EFloat.fin.injEq _ _).mp ha', (EFloat.fin.injEq _ _).mp hb']
  norm_num

theorem map_value_map_Average (vs : List EFloat) :
    (vs.map ReportedValue.Average).map ReportedValue.value = vs := by
  induction vs with
  | nil => rfl
  | cons v t ih => simp [ReportedValue.value, ih]

theorem all_tag_cons_Average (x : EFloat) (l : List EFloat) :
    (ReportedValue.Average x :: l.map ReportedValue.Average).all
      (fun v => v.tag == (ReportedValue.Average x).tag) = true := by
  rw [List.all_eq_true]
  intro v hv
  rcases List.mem_cons.1 hv with h | h
  · subst h; rfl
  · obtain ⟨p, _, rfl⟩ := List.mem_map.1 h; rfl

/-- Unfolding of `aggregate` on a non-empty homogeneous `Average` list:
`np.nanmean` over the values. -/
theorem aggregate_map_Average (x : EFloat) (vs : List EFloat) :
    aggregate (ReportedValue.Average x :: vs.map ReportedValue.Average) =
      .ok ((sumE ((x :: vs).filter (fun z => !z.isNaN))).div
          (.fin ((x :: vs).filter (fun z => !z.isNaN)).length),
        if ((x :: vs).filter (fun z => !z.isNaN)).isEmpty then ["Mean of empty slice"]
        else []) := by
  have hvals : (ReportedValue.Average x :: vs.map ReportedValue.Average).map
      ReportedValue.value = x :: vs := by
    rw [List.map_cons, map_value_map_Average]
    rfl
  simp only [aggregate, all_tag_cons_Average, if_true, hvals]

/-- C8: for every sequence of `Average` values with at least one non-NaN
entry, `aggregate` returns the arithmetic mean of the non-NaN values (the sum
of the survivors divided by their count); an all-NaN sequence and the empty
sequence both return NaN with a warning, never an error. -/
theorem aggregate_average_spec (x : EFloat) (vs : List EFloat) :
    ((x :: vs).filter (fun z => !z.isNaN) ≠ [] →
      aggregate (ReportedValue.Average x :: vs.map ReportedValue.Average)
        = .ok ((sumE ((x :: vs).filter (fun z => !z.isNaN))).div
            (.fin ((x :: vs).filter (fun z => !z.isNaN)).length), []) ∧
      ((∀ z ∈ (x :: vs).filter (fun z => !z.isNaN), EFloat.isfinite z = true) →
        ∃ s : ℚ, sumE ((x :: vs).filter (fun z => !z.isNaN)) = .fin s ∧
          aggregate (ReportedValue.Average x :: vs.map ReportedValue.Average)
            = .ok (.fin (s / (((x :: vs).filter (fun z => !z.isNaN)).length : ℚ)), []))) ∧
    ((x :: vs).filter (fun z => !z.isNaN) = [] →
      aggregate (ReportedValue.Average x :: vs.map ReportedValue.Average)
        = .ok (.nan, ["Mean of empty slice"])) ∧
    aggregate ([] : List ReportedValue) = .ok (.nan, ["No stats found"]) := by
  refine ⟨?_, ?_, rfl⟩
  · intro hne
    have hemp : ¬ ((x :: vs).filter (fun z => !z.isNaN)).isEmpty = true := by
      simpa [List.isEmpty_iff] using hne
    constructor
    · rw [aggregate_map_Average, if_neg hemp]
    · intro hfin
      obtain ⟨s, hs⟩ := sumE_eq_fin _ hfin
      have hlen : (((x :: vs).filter (fun z => !z.isNaN)).length : ℚ) ≠ 0 := by
        simpa [Nat.cast_eq_zero, List.length_eq_zero] using hne
      refine ⟨s, hs, ?_⟩
      rw [aggregate_map_Average, if_neg hemp, hs]
      simp [EFloat.div, hlen, qdiv_eq]
  · intro hempty
    rw [aggregate_map_Average, hempty]
    simp [sumE, EFloat.div]

/-- C8 witness: mean of `[1, nan, 5]` skips the NaN and yields 3; the all-NaN
case yields NaN. -/
theorem aggregate_average_spec_witness :
    ((.fin 1 : EFloat) :: [EFloat.nan, .fin 5]).filter (fun z => !z.isNaN) ≠ [] ∧
    aggregate (ReportedValue.Average (.fin 1) :: [EFloat.nan, .fin 5].map ReportedValue.Average)
      = .ok (.fin 3, []) := by
  refine ⟨by decide, ?_⟩
  obtain ⟨s, hs, hres⟩ :=
    ((aggregate_average_spec (.fin 1) [EFloat.nan, .fin 5]).1 (by decide)).2 (by decide)
  have hs' : EFloat.fin s = .fin 6 := by rw [← hs]; decide
  have hlen : (List.filter (fun z => !z.isNaN) [EFloat.fin 1, EFloat.nan, EFloat.fin 5]).length
      = 2 := by decide
  rw [hres, (EFloat.fin.injEq _ _).mp hs', hlen]
  norm_num

theorem registerLoop_clean (w : Option EFloat) (stats : List (String × Option EFloat)) :
    ∀ s : SubReporter, (∀ p ∈ stats, p.1 ∉ _reserved) →
      registerLoop w s stats = (.ok (), { s with stats := applyStats w s.stats stats }) := by
  induction stats with
  | nil => intro s _; rfl
  | cons p t ih =>
    intro s h
    obtain ⟨k, v⟩ := p
    have hk : k ∉ _reserved := h (k, v) (by simp)
    cases v with
    | none =>
      show registerLoop w s ((k, none) :: t) = _
      rw [show registerLoop w s ((k, none) :: t) = registerLoop w s t by
        simp [registerLoop, hk]]
      exact ih s (fun q hq => h q (by simp [hq]))
    | some x =>
      rw [show registerLoop w s ((k, some x) :: t)
          = registerLoop w { s with stats := ddAppend s.stats k (to_reported_value x w) } t by
        simp [registerLoop, hk]]
      exact ih _ (fun q hq => h q (by simp [hq]))

theorem registerLoop_reserved (w : Option EFloat) (rk : String) (v : Option EFloat)
    (rest : List (String × Option EFloat)) (hrk : rk ∈ _reserved) :
    ∀ pre : List (String × Option EFloat), ∀ s : SubReporter,
      (∀ p ∈ pre, p.1 ∉ _reserved) →
      registerLoop w s (pre ++ (rk, v) :: rest)
        = (.error (rk ++ " is reserved."), { s with stats := applyStats w s.stats pre }) := by
  intro pre
  induction pre with
  | nil =>
    intro s _
    simp [registerLoop, hrk, applyStats]
  | cons p t ih =>
    intro s h
    obtain ⟨k, u⟩ := p
    have hk : k ∉ _reserved := h (k, u) (by simp)
    cases u with
    | none =>
      rw [show registerLoop w s (((k, none) :: t) ++ (rk, v) :: rest)
          = registerLoop w s (t ++ (rk, v) :: rest) by simp [registerLoop, hk]]
      exact ih s (fun q hq => h q (by simp [hq]))
    | some x =>
      rw [show registerLoop w s (((k, some x) :: t) ++ (rk, v) :: rest)
          = registerLoop w { s with stats := ddAppend s.stats k (to_reported_value x w) }
              (t ++ (rk, v) :: rest) by simp [registerLoop, hk]]
      exact ih _ (fun q hq => h q (by simp [hq]))

/-- C6: on an unfinished stream, `register` with a stats dictionary free of
reserved keys and with the count increment enabled succeeds and increases
`total_count` by exactly 1, however many keys (including zero) are supplied;
in particular a `{"x": None}` dictionary appends nothing to any series but
still increments the count. -/
theorem register_counts_once (s : SubReporter) (stats : List (String × Option EFloat))
    (w : Option EFloat) (hfin : s.finished = false)
    (hres : ∀ p ∈ stats, p.1 ∉ _reserved) :
    (s.register stats w false).1 = .ok () ∧
    (s.register stats w false).2.total_count = s.total_count + 1 ∧
    s.register [("x", none)] w false
      = (.ok (), { s with total_count := s.total_count + 1 }) := by
  have h1 : s.register stats w false
      = (.ok (), { s with
                   total_count := s.total_count + 1,
                   stats := applyStats w s.stats stats }) := by
    rw [SubReporter.register, if_neg (by simp [hfin])]
    simpa using registerLoop_clean w stats
      { s with total_count := s.total_count + 1 } hres
  have h2 : s.register [("x", none)] w false
      = (.ok (), { s with total_count := s.total_count + 1 }) := by
    rw [SubReporter.register, if_neg (by simp [hfin])]
    simpa [applyStats] using registerLoop_clean w [("x", none)]
      { s with total_count := s.total_count + 1 } (by decide)
  exact ⟨by rw [h1], by rw [h1], h2⟩

/-- C6 witness: a concrete two-key call (one value, one `None`) increments
the counter by exactly one and succeeds. -/
theorem register_counts_once_witness :
    sampleStream.finished = false ∧
    (sampleStream.register [("loss", some (.fin 1)), ("acc", none)] none false).1 = .ok () ∧
    (sampleStream.register
        [("loss", some (.fin 1)), ("acc", none)] none false).2.total_count
      = sampleStream.total_count + 1 := by
  refine ⟨rfl, ?_, ?_⟩
  · exact (register_counts_once sampleStream [("loss", some (.fin 1)), ("acc", none)] none rfl
      (by decide)).1
  · exact (register_counts_once sampleStream [("loss", some (.fin 1)), ("acc", none)] none rfl
      (by decide)).2.1

/-- C9: on an unfinished stream, a `register` call whose dictionary contains
a reserved key raises, but `total_count` has already been incremented and
every non-reserved key iterated before the reserved one has already been
appended — the failed call is not rolled back. -/
theorem register_reserved_not_atomic (s : SubReporter)
    (pre : List (String × Option EFloat)) (rk : String) (v : Option EFloat)
    (rest : List (String × Option EFloat)) (w : Option EFloat)
    (hfin : s.finished = false) (hpre : ∀ p ∈ pre, p.1 ∉ _reserved)
    (hrk : rk ∈ _reserved) :
    s.register (pre ++ (rk, v) :: rest) w false
      = (.error (rk ++ " is reserved."),
         { s with
           total_count := s.total_count + 1,
           stats := applyStats w s.stats pre }) := by
  rw [SubReporter.register, if_neg (by simp [hfin])]
  simpa using registerLoop_reserved w rk v rest hrk pre
    { s with total_count := s.total_count + 1 } hpre

/-- C9 witness: `{"a": 1, "b": None, "time": 2, "c": 3}` raises on the
reserved key `time`, yet the count is incremented and the series for `a`
has already received its value (while `c` has not). -/
theorem register_reserved_not_atomic_witness :
    sampleStreamA.finished = false ∧
    sampleStreamA.register
        ([("a", some (.fin 1)), ("b", none)] ++ ("time", some (.fin 2)) :: [("c", some (.fin 3))])
        none false
      = (.error ("time" ++ " is reserved."),
         { sampleStreamA with
           total_count := sampleStreamA.total_count + 1,
           stats := applyStats none sampleStreamA.stats [("a", some (.fin 1)), ("b", none)] }) := by
  exact ⟨rfl, register_reserved_not_atomic sampleStreamA
    [("a", some (.fin 1)), ("b", none)] "time"
    (some (.fin 2)) [("c", some (.fin 3))] none rfl (by decide) (by decide)⟩

/-- C5: `finish_epoch` with a stream whose epoch differs from the Reporter's
current epoch fails, and the Reporter (in particular its finalized stats
table) is exactly the same after the failed call as before it. -/
theorem finish_epoch_mismatch (r : Reporter) (sub : SubReporter) (now : ℚ)
    (h : sub.epoch ≠ r.epoch) :
    r.finish_epoch sub now = (.error "Do not change epoch during observation", r, sub) := by
  rw [Reporter.finish_epoch, if_pos (Ne.symm h)]

/-- C5 witness: a stream opened at epoch 1 handed to a Reporter at epoch 2. -/
theorem finish_epoch_mismatch_witness :
    ({ key := "train", epoch := 1, start_time := 0, stats := [], total_count := 0,
       finished := false } : SubReporter).epoch ≠ (⟨2, []⟩ : Reporter).epoch ∧
    Reporter.finish_epoch ⟨2, []⟩
        { key := "train", epoch := 1, start_time := 0, stats := [], total_count := 0,
          finished := false } 0
      = (.error "Do not change epoch during observation", ⟨2, []⟩,
         { key := "train", epoch := 1, start_time := 0, stats := [], total_count := 0,
           finished := false }) :=
  ⟨by decide, finish_epoch_mismatch ⟨2, []⟩
    { key := "train", epoch := 1, start_time := 0, stats := [], total_count := 0,
      finished := false } 0 (by decide)⟩

/-- C7: `start_epoch` for epoch N seeds the fresh stream's `total_count` from
the finalized `total_count` recorded for that stream name at epoch N-1; when
no such record exists and N-1 is not 0, it emits a warning and seeds the
count at 0. -/
theorem start_epoch_seed (r : Reporter) (key : String) (N : Int) (now : ℚ)
    (hN : 0 ≤ N) :
    (∀ d entry n, dlookup r.stats (N - 1) = some d → dlookup d key = some entry →
      dlookup entry "total_count" = some (.cnt n) →
      r.start_epoch key (some N) now
        = (.ok { key := key, epoch := N, start_time := now, stats := [],
                 total_count := n, finished := false },
           { r with epoch := N, stats := dpop r.stats N }, [])) ∧
    ((dlookup r.stats (N - 1) = none ∨
        (∃ d, dlookup r.stats (N - 1) = some d ∧ dlookup d key = none)) →
      N - 1 ≠ 0 →
      r.start_epoch key (some N) now
        = (.ok { key := key, epoch := N, start_time := now, stats := [],
                 total_count := 0, finished := false },
           { r with epoch := N, stats := dpop r.stats N },
           ["The stats of the previous epoch does not exist."])) := by
  have hneg : ¬ N < 0 := not_lt.2 hN
  constructor
  · intro d entry n hd hdk hcnt
    rw [Reporter.start_epoch, if_neg hneg]
    simp only [startEpochBody, hd, hdk, hcnt]
  · intro hmiss hN1
    rw [Reporter.start_epoch, if_neg hneg]
    rcases hmiss with hd | ⟨d, hd, hdk⟩
    · simp only [startEpochBody, hd, if_pos hN1]
    · simp only [startEpochBody, hd, hdk, if_pos hN1]

/-- C7 witness: seeding from epoch 1's `total_count = 5` when starting epoch
2, and the warning/zero path when starting epoch 3 with no epoch-2 record. -/
theorem start_epoch_seed_witness :
    dlookup ([((1 : Int), [("train", sampleEntry)])]) ((2 : Int) - 1)
        = some [("train", sampleEntry)] ∧
    Reporter.start_epoch ⟨1, [(1, [("train", sampleEntry)])]⟩ "train" (some 2) 0
      = (.ok { key := "train", epoch := 2, start_time := 0, stats := [],
               total_count := 5, finished := false },
         ⟨2, [(1, [("train", sampleEntry)])]⟩, []) ∧
    Reporter.start_epoch ⟨1, [(1, [("train", sampleEntry)])]⟩ "train" (some 3) 0
      = (.ok { key := "train", epoch := 3, start_time := 0, stats := [],
               total_count := 0, finished := false },
         ⟨3, [(1, [("train", sampleEntry)])]⟩,
         ["The stats of the previous epoch does not exist."]) := by
  refine ⟨by decide, ?_, ?_⟩
  · have h := (start_epoch_seed ⟨1, [(1, [("train", sampleEntry)])]⟩ "train" 2 0
      (by decide)).1 [("train", sampleEntry)] sampleEntry 5 (by decide) (by decide) (by decide)
    rw [h]
    decide
  · have h := (start_epoch_seed ⟨1, [(1, [("train", sampleEntry)])]⟩ "train" 3 0
      (by decide)).2 (Or.inl (by decide)) (by decide)
    rw [h]
    decide

/-- C2: evaluating the code at the failing input.  With the epoch argument
omitted, `start_epoch` runs `self.stats.pop(epoch, None)` on the *argument*
`None`, so the pre-existing finalized entry for the current epoch is NOT
removed: starting epoch 1's "train" stream again leaves `stats[1]` fully in
place (the claim and the source's own comment, "Clear the stats for the next
epoch if it exists", say it should be evicted). -/
theorem start_epoch_no_evict_on_default_epoch :
    Reporter.start_epoch ⟨1, [(1, [("train", sampleEntry)])]⟩ "train" none 0
      = (.ok { key := "train", epoch := 1, start_time := 0, stats := [],
               total_count := 0, finished := false },
         ⟨1, [(1, [("train", sampleEntry)])]⟩, []) ∧
    dlookup (Reporter.start_epoch ⟨1, [(1, [("train", sampleEntry)])]⟩ "train" none 0).2.1.stats 1
      = some [("train", sampleEntry)] := by
  constructor <;> decide

theorem dlookup_append_single {κ ν : Type} [DecidableEq κ] (m : List (κ × ν)) (k : κ)
    (v : ν) (h : dlookup m k = none) : dlookup (m ++ [(k, v)]) k = some v := by
  induction m with
  | nil => simp [dlookup]
  | cons p t ih =>
    obtain ⟨a, b⟩ := p
    rw [List.cons_append, dlookup]
    rw [dlookup] at h
    by_cases ha : a = k
    · rw [if_pos ha] at h
      cases h
    · rw [if_neg ha] at h ⊢
      exact ih h

/-- C10: `logging`, `get_value` and `get_keys` called with an explicit epoch
absent from the finalized table insert an empty entry for that epoch (the
table is a `defaultdict`), so these nominally read-only accessors mutate the
Reporter's state: afterwards the epoch is present (changing later
`max(self.stats)` defaults and prior-epoch-existence checks). -/
theorem accessors_insert_absent_epoch (r : Reporter) (e : Int) (key key2 : String)
    (h : dlookup r.stats e = none) :
    (r.logging (some e)).2.stats = r.stats ++ [(e, [])] ∧
    (r.logging (some e)).1 = .ok [] ∧
    (r.get_value key key2 (some e)).2.stats = r.stats ++ [(e, [])] ∧
    (r.get_value key key2 (some e)).1 = .error "KeyError" ∧
    (r.get_keys (some e)).2.stats = r.stats ++ [(e, [])] ∧
    (r.get_keys (some e)).1 = .ok [] ∧
    dlookup (r.logging (some e)).2.stats e = some [] := by
  have hdd : ddGet r.stats e [] = ([], r.stats ++ [(e, [])]) := by
    rw [ddGet, h]
  have hlast : dlookup (r.stats ++ [(e, [])]) e = some [] :=
    dlookup_append_single r.stats e [] h
  refine ⟨?_, ?_, ?_, ?_, ?_, ?_, ?_⟩
  · simp [Reporter.logging, hdd]
  · simp [Reporter.logging, hdd]
  · simp [Reporter.get_value, Reporter.getValueAt, hdd, dlookup]
  · simp [Reporter.get_value, Reporter.getValueAt, hdd, dlookup]
  · simp [Reporter.get_keys, hdd]
  · simp [Reporter.get_keys, hdd]
  · simp [Reporter.logging, hdd, hlast]

/-- C10 witness: a table holding only epoch 1, queried at the absent epoch 5. -/
theorem accessors_insert_absent_epoch_witness :
    dlookup ([((1 : Int), [("train", sampleEntry)])]) (5 : Int) = none ∧
    (Reporter.get_keys ⟨0, [(1, [("train", sampleEntry)])]⟩ (some 5)).2.stats
      = [(1, [("train", sampleEntry)])] ++ [(5, [])] := by
  refine ⟨by decide, ?_⟩
  exact (accessors_insert_absent_epoch ⟨0, [(1, [("train", sampleEntry)])]⟩ 5 "k" "k2"
    (by decide)).2.2.2.2.1

/-- C1 counterexample: `observe`'s generator has no try/finally, so when the
body raises, `finish_epoch` is NOT run — the scope exits with the exception
propagated and no finalized entry for the epoch in the stats table,
contradicting the claim that the yielded stream is always finalized. -/
theorem observe_body_raises_no_finalize :
    Reporter.observe (⟨1, []⟩ : Reporter) "train" none 0 0
        (fun _ => (.error "boom" : Except PyErr (SubReporter × Unit)))
      = (.error "boom", (⟨1, []⟩ : Reporter)) ∧
    dlookup (Reporter.observe (⟨1, []⟩ : Reporter) "train" none 0 0
        (fun _ => (.error "boom" : Except PyErr (SubReporter × Unit)))).2.stats 1
      = none := by
  constructor <;> decide

/-- C1 (amended): when the body of an `observe` scope returns normally,
`finish_epoch` runs on scope exit; when the body raises, the exception
propagates to the caller unsuppressed but `finish_epoch` is NOT run — the
reporter is left exactly in its post-`start_epoch` state. -/
theorem observe_spec {α : Type} (r : Reporter) (key : String) (epoch : Option Int)
    (t1 t2 : ℚ) (body : SubReporter → Except PyErr (SubReporter × α)) :
    (∀ sub r1 w e, r.start_epoch key epoch t1 = (.ok sub, r1, w) →
      body sub = .error e →
      r.observe key epoch t1 t2 body = (.error e, r1)) ∧
    (∀ sub r1 w sub2 a, r.start_epoch key epoch t1 = (.ok sub, r1, w) →
      body sub = .ok (sub2, a) →
      r.observe key epoch t1 t2 body
        = ((r1.finish_epoch sub2 t2).1.map (fun _ => a),
           (r1.finish_epoch sub2 t2).2.1)) := by
  constructor
  · intro sub r1 w e hs hb
    simp only [Reporter.observe, hs, hb]
  · intro sub r1 w sub2 a hs hb
    simp only [Reporter.observe, hs, hb]
    rcases hfe : r1.finish_epoch sub2 t2 with ⟨exc, r2, sub3⟩
    cases exc with
    | error err => rfl
    | ok u => rfl

/-- C1 witness: both branches of the amended claim at concrete inputs: a
raising body leaves the post-start state, a normal body finalizes. -/
theorem observe_spec_witness :
    Reporter.start_epoch (⟨1, []⟩ : Reporter) "train" none 0
      = (.ok { key := "train", epoch := 1, start_time := 0, stats := [],
               total_count := 0, finished := false },
         (⟨1, []⟩ : Reporter), []) ∧
    Reporter.observe (⟨1, []⟩ : Reporter) "train" none 0 0
        (fun _ => (.error "bang" : Except PyErr (SubReporter × Unit)))
      = (.error "bang", (⟨1, []⟩ : Reporter)) ∧
    Reporter.observe (⟨1, []⟩ : Reporter) "train" none 0 3
        (fun s => (.ok (s, ()) : Except PyErr (SubReporter × Unit)))
      = (.ok (),
         (Reporter.finish_epoch (⟨1, []⟩ : Reporter)
            { key := "train", epoch := 1, start_time := 0, stats := [],
              total_count := 0, finished := false } 3).2.1) := by
  refine ⟨by decide, ?_, ?_⟩
  · exact (observe_spec (⟨1, []⟩ : Reporter) "train" none 0 0
      (fun _ => (.error "bang" : Except PyErr (SubReporter × Unit)))).1
      { key := "train", epoch := 1, start_time := 0, stats := [],
        total_count := 0, finished := false }
      (⟨1, []⟩ : Reporter) [] "bang" (by decide) rfl
  · have h := (observe_spec (⟨1, []⟩ : Reporter) "train" none 0 3
      (fun s => (.ok (s, ()) : Except PyErr (SubReporter × Unit)))).2
      { key := "train", epoch := 1, start_time := 0, stats := [],
        total_count := 0, finished := false }
      (⟨1, []⟩ : Reporter) []
      { key := "train", epoch := 1, start_time := 0, stats := [],
        total_count := 0, finished := false } () (by decide) rfl
    rw [h]
    have hok : (Reporter.finish_epoch (⟨1, []⟩ : Reporter)
        { key := "train", epoch := 1, start_time := 0, stats := [],
          total_count := 0, finished := false } 3).1 = .ok () := by decide
    rw [hok]
    rfl

theorem insertByLt_perm {α : Type} (lt : α → α → Bool) (x : α) (l : List α) :
    (insertByLt lt x l).Perm (x :: l) := by
  induction l with
  | nil => exact List.Perm.refl _
  | cons y ys ih =>
    rw [insertByLt]
    by_cases h : lt y x = true
    · rw [if_pos h]
      exact (List.Perm.cons y ih).trans (List.Perm.swap x y ys)
    · rw [if_neg h]

theorem sortByLt_perm {α : Type} (lt : α → α → Bool) (l : List α) :
    (sortByLt lt l).Perm l := by
  induction l with
  | nil => exact List.Perm.refl _
  | cons x xs ih =>
    rw [sortByLt]
    exact (insertByLt_perm lt x (sortByLt lt xs)).trans (List.Perm.cons x ih)

theorem mem_sortByLt {α : Type} (lt : α → α → Bool) (l : List α) (a : α)
    (h : a ∈ sortByLt lt l) : a ∈ l :=
  (sortByLt_perm lt l).mem_iff.1 h

theorem insertByLt_pairwise {α : Type} (lt : α → α → Bool) (x : α) (l : List α)
    (hsorted : l.Pairwise (fun a b => lt b a = false))
    (hax : ∀ y ∈ l, lt y x = true → lt x y = false)
    (hnt : ∀ y ∈ l, ∀ z ∈ l, lt z y = false → lt y x = false → lt z x = false) :
    (insertByLt lt x l).Pairwise (fun a b => lt b a = false) := by
  induction l with
  | nil => exact List.pairwise_singleton _ x
  | cons y ys ih =>
    rw [insertByLt]
    rcases List.pairwise_cons.1 hsorted with ⟨hy, hys⟩
    by_cases h : lt y x = true
    · rw [if_pos h]
      refine List.pairwise_cons.2 ⟨?_, ?_⟩
      · intro z hz
        rcases List.mem_cons.1 ((insertByLt_perm lt x ys).mem_iff.1 hz) with hzx | hzys
        · rw [hzx]
          exact hax y (by simp) h
        · exact hy z hzys
      · exact ih hys (fun z hz hlt => hax z (by simp [hz]) hlt)
          (fun z hz w hw h1 h2 => hnt z (by simp [hz]) w (by simp [hw]) h1 h2)
    · rw [if_neg h]
      have hx : lt y x = false := by
        cases hyx : lt y x with
        | true => exact absurd hyx h
        | false => rfl
      refine List.pairwise_cons.2 ⟨?_, hsorted⟩
      intro z hz
      rcases List.mem_cons.1 hz with hzy | hzys
      · rw [hzy]
        exact hx
      · exact hnt y (by simp) z (by simp [hzys]) (hy z hzys) hx

theorem sortByLt_pairwise {α : Type} (lt : α → α → Bool) (l : List α)
    (hax : ∀ a ∈ l, ∀ b ∈ l, lt a b = true → lt b a = false)
    (hnt : ∀ a ∈ l, ∀ b ∈ l, ∀ c ∈ l, lt c b = false → lt b a = false → lt c a = false) :
    (sortByLt lt l).Pairwise (fun a b => lt b a = false) := by
  induction l with
  | nil => exact List.Pairwise.nil
  | cons x xs ih =>
    rw [sortByLt]
    have hmem : ∀ z ∈ sortByLt lt xs, z ∈ x :: xs :=
      fun z hz => by simp [mem_sortByLt lt xs z hz]
    refine insertByLt_pairwise lt x (sortByLt lt xs) ?_ ?_ ?_
    · exact ih (fun a ha b hb => hax a (by simp [ha]) b (by simp [hb]))
        (fun a ha b hb c hc => hnt a (by simp [ha]) b (by simp [hb]) c (by simp [hc]))
    · intro y hy
      exact hax y (hmem y hy) x (by simp)
    · intro y hy z hz
      exact hnt x (by simp) y (hmem y hy) z (hmem z hz)

theorem insertByLt_filter {α : Type} (lt : α → α → Bool) (P : α → Bool) (x : α)
    (l : List α) (hP : ∀ a b, P a = true → P b = true → lt a b = false) :
    (insertByLt lt x l).filter P
      = if P x then x :: l.filter P else l.filter P := by
  induction l with
  | nil =>
    rw [insertByLt]
    by_cases hx : P x = true
    · simp [List.filter, hx]
    · simp [List.filter, hx]
  | cons y ys ih =>
    rw [insertByLt]
    by_cases h : lt y x = true
    · rw [if_pos h]
      by_cases hx : P x = true
      · have hy : P y = false := by
          cases hPy : P y with
          | true => exact absurd (hP y x hPy hx) (by simp [h])
          | false => rfl
        simp [List.filter_cons, hy, hx, ih]
      · have hx' : P x = false := by
          cases hPx : P x with
          | true => exact absurd hPx hx
          | false => rfl
        simp [List.filter_cons, hx', ih]
    · rw [if_neg h]
      by_cases hx : P x = true
      · simp [List.filter_cons, hx]
      · have hx' : P x = false := by
          cases hPx : P x with
          | true => exact absurd hPx hx
          | false => rfl
        simp [List.filter_cons, hx']

theorem sortByLt_filter {α : Type} (lt : α → α → Bool) (P : α → Bool) (l : List α)
    (hP : ∀ a b, P a = true → P b = true → lt a b = false) :
    (sortByLt lt l).filter P = l.filter P := by
  induction l with
  | nil => rfl
  | cons x xs ih =>
    rw [sortByLt, insertByLt_filter lt P x (sortByLt lt xs) hP]
    by_cases hx : P x = true
    · rw [if_pos hx, ih, List.filter_cons_of_pos hx]
    · rw [if_neg hx, ih, List.filter_cons_of_neg (by simpa using hx)]

theorem fvLt_irrefl (v : FinalVal) : fvLt v v = false := by
  cases v with
  | num x => cases x <;> simp [fvLt, EFloat.lt]
  | dur t => simp [fvLt]
  | cnt n => simp [fvLt]

theorem extractValues_of_all (stats : StatsTable) (key key2 : String)
    (h : ∀ p ∈ stats, holdsEntry p.2 key key2 = true) :
    extractValues stats key key2 = .ok (pairsOf stats key key2) := by
  induction stats with
  | nil => rfl
  | cons p t ih =>
    obtain ⟨e, d⟩ := p
    have hp := h (e, d) (by simp)
    rw [holdsEntry] at hp
    cases hk : dlookup d key with
    | none => rw [hk] at hp; simp at hp
    | some entry =>
      cases hk2 : dlookup entry key2 with
      | none => simp [hk, hk2] at hp
      | some v =>
        simp only [extractValues, hk, hk2, ih (fun q hq => h q (by simp [hq]))]
        simp [pairsOf, List.filterMap_cons, hk, hk2]

theorem extractValues_of_missing (stats : StatsTable) (key key2 : String)
    (h : ∃ p ∈ stats, holdsEntry p.2 key key2 = false) :
    extractValues stats key key2 = .error "KeyError" := by
  induction stats with
  | nil => simp at h
  | cons p t ih =>
    obtain ⟨e, d⟩ := p
    by_cases hph : holdsEntry d key key2 = true
    · rw [holdsEntry] at hph
      cases hk : dlookup d key with
      | none => rw [hk] at hph; simp at hph
      | some entry =>
        cases hk2 : dlookup entry key2 with
        | none => simp [hk, hk2] at hph
        | some v =>
          have ht : ∃ q ∈ t, holdsEntry q.2 key key2 = false := by
            rcases h with ⟨q, hq, hq2⟩
            rcases List.mem_cons.1 hq with hq1 | hqt
            · rw [hq1] at hq2
              simp [holdsEntry, hk, hk2] at hq2
            · exact ⟨q, hqt, hq2⟩
          simp only [extractValues, hk, hk2, ih ht]
    · have hfalse : holdsEntry d key key2 = false := by simpa using hph
      rw [holdsEntry] at hfalse
      cases hk : dlookup d key with
      | none => simp [extractValues, hk]
      | some entry =>
        cases hk2 : dlookup entry key2 with
        | none => simp [extractValues, hk, hk2]
        | some v => simp [hk, hk2] at hfalse

/-- C4 (amended): `sort_epochs_and_values` fails for a mode other than
"min"/"max"; it visits *every* finalized epoch and fails with a `KeyError`
when any epoch lacks the `(streamName, key)` entry; when all epochs hold the
entry it returns their `(epoch, value)` pairs stably sorted by value —
ascending for "min" and descending for "max" (stated here for finite stored
values), with ties kept in the underlying table's iteration order. -/
theorem sort_epochs_and_values_spec (r : Reporter) (key key2 mode : String) :
    (mode ≠ "min" → mode ≠ "max" →
      r.sort_epochs_and_values key key2 mode = .error "mode must min or max") ∧
    ((mode = "min" ∨ mode = "max") →
      (∃ p ∈ r.stats, holdsEntry p.2 key key2 = false) →
      r.sort_epochs_and_values key key2 mode = .error "KeyError") ∧
    ((mode = "min" ∨ mode = "max") →
      (∀ p ∈ r.stats, holdsEntry p.2 key key2 = true) →
      ∃ l, r.sort_epochs_and_values key key2 mode = .ok l ∧
        l.Perm (pairsOf r.stats key key2) ∧
        (∀ v : FinalVal, l.filter (fun q => decide (q.2 = v))
          = (pairsOf r.stats key key2).filter (fun q => decide (q.2 = v))) ∧
        ((∀ p ∈ pairsOf r.stats key key2, ∃ q : ℚ,
            (p : Int × FinalVal).2 = .num (.fin q)) →
          (mode = "min" → l.Pairwise (fun a b => fvLt b.2 a.2 = false)) ∧
          (mode = "max" →
            l.Pairwise (fun a b => fvLt (fvNeg b.2) (fvNeg a.2) = false)))) := by
  refine ⟨?_, ?_, ?_⟩
  · intro h1 h2
    rw [Reporter.sort_epochs_and_values, if_pos ⟨h1, h2⟩]
  · intro hmode hmiss
    rw [Reporter.sort_epochs_and_values,
      if_neg (by rcases hmode with h | h <;> simp [h]),
      extractValues_of_missing r.stats key key2 hmiss]
  · intro hmode hall
    rcases hmode with hmin | hmax
    · refine ⟨sortByLt (fun a b => fvLt a.2 b.2) (pairsOf r.stats key key2), ?_, ?_, ?_, ?_⟩
      · rw [Reporter.sort_epochs_and_values, if_neg (by simp [hmin]),
          extractValues_of_all r.stats key key2 hall, hmin]
        rfl
      · exact sortByLt_perm _ _
      · intro v
        refine sortByLt_filter _ _ _ ?_
        intro a b ha hb
        have ha' : a.2 = v := of_decide_eq_true ha
        have hb' : b.2 = v := of_decide_eq_true hb
        rw [ha', hb', fvLt_irrefl]
      · intro hfin
        refine ⟨fun _ => ?_, fun hcontr => absurd (hmin.symm.trans hcontr) (by decide)⟩
        refine sortByLt_pairwise _ _ ?_ ?_
        · intro a ha b hb hab
          obtain ⟨qa, hqa⟩ := hfin a ha
          obtain ⟨qb, hqb⟩ := hfin b hb
          rw [hqa, hqb] at hab ⊢
          have : qa < qb := of_decide_eq_true hab
          exact decide_eq_false (not_lt.2 (le_of_lt this))
        · intro a ha b hb c hc h1 h2
          obtain ⟨qa, hqa⟩ := hfin a ha
          obtain ⟨qb, hqb⟩ := hfin b hb
          obtain ⟨qc, hqc⟩ := hfin c hc
          rw [hqb, hqc] at h1
          rw [hqa, hqb] at h2
          rw [hqa, hqc]
          have h1' : ¬ qc < qb := of_decide_eq_false h1
          have h2' : ¬ qb < qa := of_decide_eq_false h2
          exact decide_eq_false (fun hlt => h1' (lt_of_lt_of_le hlt (not_lt.1 h2')))
    · refine ⟨sortByLt (fun a b => fvLt (fvNeg a.2) (fvNeg b.2)) (pairsOf r.stats key key2),
        ?_, ?_, ?_, ?_⟩
      · rw [Reporter.sort_epochs_and_values, if_neg (by simp [hmax]),
          extractValues_of_all r.stats key key2 hall, hmax]
        rfl
      · exact sortByLt_perm _ _
      · intro v
        refine sortByLt_filter _ _ _ ?_
        intro a b ha hb
        have ha' : a.2 = v := of_decide_eq_true ha
        have hb' : b.2 = v := of_decide_eq_true hb
        rw [ha', hb', fvLt_irrefl]
      · intro hfin
        refine ⟨fun hcontr => absurd (hmax.symm.trans hcontr) (by decide), fun _ => ?_⟩
        refine sortByLt_pairwise _ _ ?_ ?_
        · intro a ha b hb hab
          obtain ⟨qa, hqa⟩ := hfin a ha
          obtain ⟨qb, hqb⟩ := hfin b hb
          rw [hqa, hqb] at hab ⊢
          have : -qa < -qb := of_decide_eq_true hab
          exact decide_eq_false (not_lt.2 (le_of_lt this))
        · intro a ha b hb c hc h1 h2
          obtain ⟨qa, hqa⟩ := hfin a ha
          obtain ⟨qb, hqb⟩ := hfin b hb
          obtain ⟨qc, hqc⟩ := hfin c hc
          rw [hqb, hqc] at h1
          rw [hqa, hqb] at h2
          rw [hqa, hqc]
          have h1' : ¬ -qc < -qb := of_decide_eq_false h1
          have h2' : ¬ -qb < -qa := of_decide_eq_false h2
          exact decide_eq_false (fun hlt => h1' (lt_of_lt_of_le hlt (not_lt.1 h2')))

/-- C4 counterexample: with finalized epochs `{1: {"eval": {...}}, 2:
{"train": {...}}}`, the claim says `sort_epochs_and_values("eval", "loss",
"min")` returns the pairs over exactly the epochs holding the entry —
`[(1, 1/2)]` — but the code visits epoch 2 as well and raises a `KeyError`. -/
theorem sort_epochs_and_values_counterexample :
    Reporter.sort_epochs_and_values
        ⟨2, [(1, [("eval", [("loss", FinalVal.num (.fin (mkRat 1 2)))])]),
             (2, [("train", [("x", FinalVal.num (.fin 1))])])]⟩
        "eval" "loss" "min" = .error "KeyError" ∧
    pairsOf [(1, [("eval", [("loss", FinalVal.num (.fin (mkRat 1 2)))])]),
             (2, [("train", [("x", FinalVal.num (.fin 1))])])]
        "eval" "loss" = [(1, FinalVal.num (.fin (mkRat 1 2)))] := by
  constructor <;> decide

/-- C4 witness: the amended claim instantiated on the specification's
scenario table, and the concrete sorted output `[(2, 0.2), (1, 0.5),
(3, 0.8)]` for mode "min". -/
theorem sort_epochs_and_values_spec_witness :
    (∀ p ∈ sampleSortTable, holdsEntry p.2 "eval" "loss" = true) ∧
    (∃ l, Reporter.sort_epochs_and_values ⟨3, sampleSortTable⟩ "eval" "loss" "min" = .ok l ∧
      l.Perm (pairsOf sampleSortTable "eval" "loss") ∧
      (∀ v : FinalVal, l.filter (fun q => decide (q.2 = v))
        = (pairsOf sampleSortTable "eval" "loss").filter (fun q => decide (q.2 = v))) ∧
      ((∀ p ∈ pairsOf sampleSortTable "eval" "loss", ∃ q : ℚ,
          (p : Int × FinalVal).2 = .num (.fin q)) →
        (("min" : String) = "min" → l.Pairwise (fun a b => fvLt b.2 a.2 = false)) ∧
        (("min" : String) = "max" →
          l.Pairwise (fun a b => fvLt (fvNeg b.2) (fvNeg a.2) = false)))) ∧
    Reporter.sort_epochs_and_values ⟨3, sampleSortTable⟩ "eval" "loss" "min"
      = .ok [(2, .num (.fin (mkRat 1 5))), (1, .num (.fin (mkRat 1 2))),
             (3, .num (.fin (mkRat 4 5)))] := by
  refine ⟨by decide, ?_, by decide⟩
  exact (sort_epochs_and_values_spec ⟨3, sampleSortTable⟩ "eval" "loss" "min").2.2
    (Or.inl rfl) (by decide)
